import Mathlib

/-!
# cloudwatch-alarm-delete: the alarm reconciliation workflow

A shallow embedding of `main.go`.  The program reads a list of alarm names,
asks the monitoring backend whether each one exists, asks the operator for a
confirmation and deletes the alarms that were found.

Everything the program does not compute itself is a field of `World`: the file
system, the YAML decoder, the SDK configuration loader and the two CloudWatch
operations.  The parsed flags and the string that `fmt.Scanln` stores in
`confirmation` are arguments of `main`; `mainWithStdin` runs `main` on the
contents of standard input, with `Scanln` after the scanner of the Go standard
library.  The backend is a deterministic transition system over an arbitrary
state type `σ`, so that a backend whose answers change from call to call is
covered.

Console output is not modelled, with one exception: the confirmation prompt.
Every call that `main` makes to the outside is recorded in a trace of `Event`s.
-/

set_option autoImplicit false

namespace CloudwatchAlarmDelete

/-! ## Data model -/

/-- The decoded YAML document: `Config` with its single field
`cloudwatch_alarm_list`. -/
structure Config where
  CloudWatchAlarms : List String

/-- A metric ("simple") alarm as returned by the backend. -/
structure MetricAlarm where
  AlarmName : String

/-- A composite alarm as returned by the backend. -/
structure CompositeAlarm where
  AlarmName : String

/-- The part of `cloudwatch.DescribeAlarmsOutput` that the program reads. -/
structure DescribeAlarmsOutput where
  MetricAlarms : List MetricAlarm
  CompositeAlarms : List CompositeAlarm

/-- The two load options that `loadAWSConfig` hands to the SDK. -/
inductive LoadOption where
  | WithSharedConfigProfile (profile : String)
  | WithRegion (region : String)
  deriving DecidableEq, Repr

/-- One interaction of `main` with the outside, in program order. -/
inductive Event where
  /-- The call `os.ReadFile(filename)` inside `LoadAlarmsFromYAML`. -/
  | ReadFile (filename : String)
  /-- The call `config.LoadDefaultConfig(ctx, opts...)` inside `loadAWSConfig`. -/
  | LoadDefaultConfig (opts : List LoadOption)
  /-- The call `cwManager.AlarmExists(alarmName)` together with what it returned. -/
  | AlarmExists (alarmName : String) (found : Bool) (err : Option String)
  /-- The confirmation prompt, `About to delete %d alarm(s)...`. -/
  | Prompt (count : Nat)
  /-- The call `fmt.Scanln(&confirmation)`. -/
  | Scanln
  /-- The call `cwManager.DeleteAlarm(alarmName)` together with what it returned. -/
  | DeleteAlarm (alarmName : String) (err : Option String)
  deriving DecidableEq, Repr

/-- The collaborators of the program.  `σ` is the state of the monitoring
backend as seen through the client. -/
structure World (σ : Type) where
  /-- The function `os.ReadFile`. -/
  readFile : String → Except String String
  /-- The function `yaml.Unmarshal` into a `Config`. -/
  unmarshal : String → Except String Config
  /-- The function `config.LoadDefaultConfig` followed by `cloudwatch.NewFromConfig`: a
  client, that is a handle on the backend state, or an error. -/
  loadDefaultConfig : List LoadOption → Except String σ
  /-- The operation `client.DescribeAlarms` for a batch of names. -/
  describeAlarms : σ → List String → σ × Except String DescribeAlarmsOutput
  /-- The operation `client.DeleteAlarms` for a batch of names. -/
  deleteAlarms : σ → List String → σ × Except String Unit

/-- The local variables of `main` while the two loops run: the client and the
four statistics slices, plus the trace. -/
structure State (σ : Type) where
  cw : σ
  existingAlarms : List String
  nonExistentAlarms : List String
  deletedAlarms : List String
  failedDeletions : List String
  trace : List Event

/-- What is left when the process ends: the four slices, the trace and the
exit status of the process. -/
structure Summary where
  existingAlarms : List String
  nonExistentAlarms : List String
  deletedAlarms : List String
  failedDeletions : List String
  trace : List Event
  exitCode : Nat
  deriving DecidableEq, Repr

/-! ## The program -/

variable {σ : Type}

/-- The method `(cw *CloudWatchManager) AlarmExists`: one `DescribeAlarms` call for the
single name; an error of the call is wrapped and returned with `false`,
otherwise the answer is whether either list of the output is non-empty. -/
def AlarmExists (w : World σ) (cw : σ) (alarmName : String) : σ × Bool × Option String :=
  match w.describeAlarms cw [alarmName] with
  | (cw', .error err) =>
    (cw', false, some ("error describing alarm " ++ alarmName ++ ": " ++ err))
  | (cw', .ok result) =>
    if result.MetricAlarms.length > 0 ∨ result.CompositeAlarms.length > 0 then
      (cw', true, none)
    else
      (cw', false, none)

/-- The method `(cw *CloudWatchManager) DeleteAlarm`: one `DeleteAlarms` call for the
single name; an error of the call is wrapped and returned. -/
def DeleteAlarm (w : World σ) (cw : σ) (alarmName : String) : σ × Option String :=
  match w.deleteAlarms cw [alarmName] with
  | (cw', .error err) =>
    (cw', some ("error deleting alarm " ++ alarmName ++ ": " ++ err))
  | (cw', .ok _) => (cw', none)

/-- The function `LoadAlarmsFromYAML`: the file is read, then decoded; an error
of either step is wrapped and returned. -/
def LoadAlarmsFromYAML (w : World σ) (filename : String) : Except String (List String) :=
  match w.readFile filename with
  | .error err => .error ("error reading YAML file: " ++ err)
  | .ok data =>
    match w.unmarshal data with
    | .error err => .error ("error unmarshaling YAML: " ++ err)
    | .ok config => .ok config.CloudWatchAlarms

/-- The option list that `loadAWSConfig` builds from `env` and `region`
before it calls `config.LoadDefaultConfig`. -/
def loadOptions (env region : String) : List LoadOption :=
  let opts : List LoadOption := []
  let opts :=
    if env = "currentsite-dev" then
      opts ++ [LoadOption.WithSharedConfigProfile "currentsite-dev"]
    else if env = "currentsite-prod" then
      opts ++ [LoadOption.WithSharedConfigProfile "currentsite-prod"]
    else
      opts ++ [LoadOption.WithSharedConfigProfile "currentsite-dev"]
  if region ≠ "" then
    opts ++ [LoadOption.WithRegion region]
  else
    opts ++ [LoadOption.WithRegion "ap-northeast-1"]

/-- The function `loadAWSConfig`: the options are built and handed to
`config.LoadDefaultConfig`, whose error is returned as it is. -/
def loadAWSConfig (w : World σ) (env region : String) : Except String σ :=
  match w.loadDefaultConfig (loadOptions env region) with
  | .error err => .error err
  | .ok cfg => .ok cfg

/-- The function `NewCloudWatchManager`; `env` and `region` are the values of the two
command-line flags. -/
def NewCloudWatchManager (w : World σ) (env region : String) : Except String σ :=
  match loadAWSConfig w env region with
  | .error err => .error ("unable to load SDK config, " ++ err)
  | .ok cfg => .ok cfg

/-- The body of the first loop of `main` (step 1) for one alarm name. -/
def checkStep (w : World σ) (st : State σ) (alarmName : String) : State σ :=
  match AlarmExists w st.cw alarmName with
  | (cw', found, some err) =>
    -- "Error checking alarm": continue
    { st with cw := cw', trace := st.trace ++ [Event.AlarmExists alarmName found (some err)] }
  | (cw', found, none) =>
    if found then
      { st with
        cw := cw'
        existingAlarms := st.existingAlarms ++ [alarmName]
        trace := st.trace ++ [Event.AlarmExists alarmName found none] }
    else
      { st with
        cw := cw'
        nonExistentAlarms := st.nonExistentAlarms ++ [alarmName]
        trace := st.trace ++ [Event.AlarmExists alarmName found none] }

/-- The first loop of `main`: `for i, alarmName := range alarmNames`. -/
def checkPhase (w : World σ) (st : State σ) (alarmNames : List String) : State σ :=
  alarmNames.foldl (checkStep w) st

/-- The body of the second loop of `main` (step 3) for one alarm name. -/
def deleteStep (w : World σ) (st : State σ) (alarmName : String) : State σ :=
  match DeleteAlarm w st.cw alarmName with
  | (cw', some err) =>
    { st with
      cw := cw'
      failedDeletions := st.failedDeletions ++ [alarmName]
      trace := st.trace ++ [Event.DeleteAlarm alarmName (some err)] }
  | (cw', none) =>
    { st with
      cw := cw'
      deletedAlarms := st.deletedAlarms ++ [alarmName]
      trace := st.trace ++ [Event.DeleteAlarm alarmName none] }

/-- The second loop of `main`: `for i, alarmName := range existingAlarms`. -/
def deletePhase (w : World σ) (st : State σ) (existingAlarms : List String) : State σ :=
  existingAlarms.foldl (deleteStep w) st

/-- The end of the process with the given exit status. -/
def State.finish (st : State σ) (exitCode : Nat) : Summary :=
  { existingAlarms := st.existingAlarms
    nonExistentAlarms := st.nonExistentAlarms
    deletedAlarms := st.deletedAlarms
    failedDeletions := st.failedDeletions
    trace := st.trace
    exitCode := exitCode }

/-- The process ends before the statistics slices are declared. -/
def abort (trace : List Event) (exitCode : Nat) : Summary :=
  { existingAlarms := []
    nonExistentAlarms := []
    deletedAlarms := []
    failedDeletions := []
    trace := trace
    exitCode := exitCode }

/-- The function `main`.  `env` and `region` are the parsed flags and
`confirmation` is the value that `fmt.Scanln` leaves in the variable
`confirmation` (the empty string when the line holds no token).  A `return`
from `main` ends the process with status 0, `log.Fatalf` with status 1. -/
def main (w : World σ) (env region confirmation : String) : Summary :=
  let trace := [Event.ReadFile "cloudwatch-alarms.yaml"]
  match LoadAlarmsFromYAML w "cloudwatch-alarms.yaml" with
  | .error _ => abort trace 0
  | .ok alarmNames =>
    let trace := trace ++ [Event.LoadDefaultConfig (loadOptions env region)]
    match NewCloudWatchManager w env region with
    | .error _ => abort trace 1
    | .ok cwManager =>
      let st : State σ :=
        { cw := cwManager
          existingAlarms := []
          nonExistentAlarms := []
          deletedAlarms := []
          failedDeletions := []
          trace := trace }
      -- Step 1: check which alarms exist
      let st := checkPhase w st alarmNames
      -- Step 2: confirm deletion
      if st.existingAlarms.length = 0 then
        st.finish 0
      else
        let st := { st with trace := st.trace ++ [Event.Prompt st.existingAlarms.length, Event.Scanln] }
        if confirmation ≠ "yes" ∧ confirmation ≠ "y" ∧ confirmation ≠ "YES" ∧ confirmation ≠ "Y" then
          st.finish 0
        else
          -- Step 3: delete existing alarms
          let st := deletePhase w st st.existingAlarms
          st.finish 0

/-! ## The read of the confirmation

The call `fmt.Scanln(&confirmation)` of `main`, after `fmt/scan.go` of the Go
standard library for a single `*string` operand: blanks are skipped, the next
word is stored, and whatever follows the word on the line only makes the call
return an error, which `main` does not look at. -/

/-- The table `space` of `fmt/scan.go`: the ranges of white space characters. -/
def space : List (Nat × Nat) :=
  [(0x0009, 0x000d), (0x0020, 0x0020), (0x0085, 0x0085), (0x00a0, 0x00a0), (0x1680, 0x1680),
    (0x2000, 0x200a), (0x2028, 0x2029), (0x202f, 0x202f), (0x205f, 0x205f), (0x3000, 0x3000)]

/-- The function `isSpace` of `fmt/scan.go`: whether the rune lies in one of
the ranges of `space`. -/
def isSpace (r : Char) : Bool :=
  if r.toNat ≥ 2 ^ 16 then false
  else space.any fun rng => decide (rng.1 ≤ r.toNat) && decide (r.toNat ≤ rng.2)

/-- The method `SkipSpace` of the scanner with newlines not counted as space
(`Scanln`), on the input still to be read: `none` is the error "unexpected
newline", otherwise the input from the first rune that is no space on. -/
def SkipSpace : List Char → Option (List Char)
  | [] => some []
  | r :: rest =>
    if r = '\r' ∧ rest.head? = some '\n' then SkipSpace rest
    else if r = '\n' then none
    else if !isSpace r then some (r :: rest)
    else SkipSpace rest

/-- The loop of the method `token` with the predicate `notSpace`: the runes up
to the first white space or the end of the input. -/
def token : List Char → List Char
  | [] => []
  | r :: rest => if !isSpace r then r :: token rest else []

/-- The method `convertString` for the verb `%v`: skip the blanks, fail at the
end of the input, then read the next word; `none` is a scan error. -/
def convertString (input : List Char) : Option String :=
  match SkipSpace input with
  | none => none
  | some [] => none
  | some rest =>
    match SkipSpace rest with
    | none => none
    | some rest' => some (String.mk (token rest'))

/-- The value of the variable `confirmation` after `fmt.Scanln(&confirmation)`
on the standard input `stdin`: the word `convertString` reads, or the zero
value of the variable when the scan fails before a word is stored.  The check
for the end of the line comes after the store and cannot undo it. -/
def Scanln (stdin : String) : String :=
  match convertString stdin.data with
  | none => ""
  | some str => str

/-- The function `main` on the contents of standard input. -/
def mainWithStdin (w : World σ) (env region stdin : String) : Summary :=
  main w env region (Scanln stdin)

/-! ## Reading a trace -/

/-- The names passed to `AlarmExists`, in call order. -/
def existsCalls (trace : List Event) : List String :=
  trace.filterMap fun e =>
    match e with
    | .AlarmExists alarmName _ _ => some alarmName
    | _ => none

/-- The names passed to `DeleteAlarm`, in call order. -/
def deleteCalls (trace : List Event) : List String :=
  trace.filterMap fun e =>
    match e with
    | .DeleteAlarm alarmName _ => some alarmName
    | _ => none

/-- The names whose existence check returned an error: the alarms the
first loop skips. -/
def skippedAlarms (trace : List Event) : List String :=
  trace.filterMap fun e =>
    match e with
    | .AlarmExists alarmName _ (some _) => some alarmName
    | _ => none

/-- The names whose existence check returned `(true, nil)`, in call order. -/
def foundAlarms (trace : List Event) : List String :=
  trace.filterMap fun e =>
    match e with
    | .AlarmExists alarmName true none => some alarmName
    | _ => none

/-- The names whose existence check returned `(false, nil)`, in call order. -/
def missingAlarms (trace : List Event) : List String :=
  trace.filterMap fun e =>
    match e with
    | .AlarmExists alarmName false none => some alarmName
    | _ => none

/-- The names whose deletion returned `nil`, in call order. -/
def acceptedDeletes (trace : List Event) : List String :=
  trace.filterMap fun e =>
    match e with
    | .DeleteAlarm alarmName none => some alarmName
    | _ => none

/-- The names whose deletion returned an error, in call order. -/
def rejectedDeletes (trace : List Event) : List String :=
  trace.filterMap fun e =>
    match e with
    | .DeleteAlarm alarmName (some _) => some alarmName
    | _ => none

/-- Whether the event is an existence check. -/
def Event.isCheck : Event → Bool
  | .AlarmExists _ _ _ => true
  | _ => false

/-- Whether the event is a deletion. -/
def Event.isDelete : Event → Bool
  | .DeleteAlarm _ _ => true
  | _ => false

/-- Whether the event is the confirmation prompt or the read of the answer. -/
def Event.isGate : Event → Bool
  | .Prompt _ => true
  | .Scanln => true
  | _ => false

/-- Whether the event touches the backend: client construction, an existence
check or a deletion. -/
def Event.isBackend : Event → Bool
  | .LoadDefaultConfig _ => true
  | .AlarmExists _ _ _ => true
  | .DeleteAlarm _ _ => true
  | _ => false

/-- The affirmative answers: `confirmation` is one of the four literals. -/
def affirmative (confirmation : String) : Prop :=
  confirmation = "yes" ∨ confirmation = "y" ∨ confirmation = "YES" ∨ confirmation = "Y"

instance (confirmation : String) : Decidable (affirmative confirmation) := by
  unfold affirmative; infer_instance

/-- The trace of a run up to the first existence check. -/
def startTrace (env region : String) : List Event :=
  [Event.ReadFile "cloudwatch-alarms.yaml", Event.LoadDefaultConfig (loadOptions env region)]

/-! ## Scripted worlds

Concrete collaborators on which the program can be evaluated: the client is a
script of the answers still to be given, one list for `DescribeAlarms` and one
for `DeleteAlarms`; an exhausted script answers "no alarm" and "accepted". -/

/-- A `DescribeAlarms` answer that reports no alarm of either kind. -/
def emptyOutput : DescribeAlarmsOutput :=
  { MetricAlarms := [], CompositeAlarms := [] }

/-- A `DescribeAlarms` answer that reports one metric alarm. -/
def metricOutput (alarmName : String) : DescribeAlarmsOutput :=
  { MetricAlarms := [{ AlarmName := alarmName }], CompositeAlarms := [] }

/-- A `DescribeAlarms` answer that reports one composite alarm. -/
def compositeOutput (alarmName : String) : DescribeAlarmsOutput :=
  { MetricAlarms := [], CompositeAlarms := [{ AlarmName := alarmName }] }

/-- The world in which reading the file gives `file`, the document decodes
to `alarmNames`, building the client fails with `client` when that is an
error message, and the backend replays the two scripts. -/
def scriptedWorld (file : Except String String) (alarmNames : List String)
    (client : Option String)
    (describes : List (Except String DescribeAlarmsOutput))
    (deletes : List (Except String Unit)) :
    World (List (Except String DescribeAlarmsOutput) × List (Except String Unit)) :=
  { readFile := fun _ => file
    unmarshal := fun _ => .ok { CloudWatchAlarms := alarmNames }
    loadDefaultConfig := fun _ =>
      match client with
      | some err => .error err
      | none => .ok (describes, deletes)
    describeAlarms := fun cw _ =>
      match cw.1 with
      | [] => (cw, .ok emptyOutput)
      | d :: ds => ((ds, cw.2), d)
    deleteAlarms := fun cw _ =>
      match cw.2 with
      | [] => (cw, .ok ())
      | d :: ds => ((cw.1, ds), d) }

/-- Two alarms `a` and `b`, both present; every deletion is accepted. -/
def bothExistWorld :
    World (List (Except String DescribeAlarmsOutput) × List (Except String Unit)) :=
  scriptedWorld (.ok "cloudwatch_alarm_list: [a, b]") ["a", "b"] none
    [.ok (metricOutput "a"), .ok (compositeOutput "b")] []

/-- Two alarms `a` and `b`, both present; deleting `a` is accepted and
deleting `b` fails. -/
def secondDeleteFailsWorld :
    World (List (Except String DescribeAlarmsOutput) × List (Except String Unit)) :=
  scriptedWorld (.ok "cloudwatch_alarm_list: [a, b]") ["a", "b"] none
    [.ok (metricOutput "a"), .ok (metricOutput "b")] [.ok (), .error "AccessDenied"]

/-- Two alarms `a` and `b`, both present; deleting `a` fails and deleting
`b` is accepted. -/
def firstDeleteFailsWorld :
    World (List (Except String DescribeAlarmsOutput) × List (Except String Unit)) :=
  scriptedWorld (.ok "cloudwatch_alarm_list: [a, b]") ["a", "b"] none
    [.ok (metricOutput "a"), .ok (metricOutput "b")] [.error "Throttling", .ok ()]

/-- Three alarms: `a` is present, `b` is absent, the check of `c` fails. -/
def mixedWorld :
    World (List (Except String DescribeAlarmsOutput) × List (Except String Unit)) :=
  scriptedWorld (.ok "cloudwatch_alarm_list: [a, b, c]") ["a", "b", "c"] none
    [.ok (metricOutput "a"), .ok emptyOutput, .error "RequestTimeout"] []

/-- The check of `a` fails, `b` is absent, `c` is present. -/
def errorFirstWorld :
    World (List (Except String DescribeAlarmsOutput) × List (Except String Unit)) :=
  scriptedWorld (.ok "cloudwatch_alarm_list: [a, b, c]") ["a", "b", "c"] none
    [.error "RequestTimeout", .ok emptyOutput, .ok (metricOutput "c")] []

/-- The alarm list is empty. -/
def emptyListWorld :
    World (List (Except String DescribeAlarmsOutput) × List (Except String Unit)) :=
  scriptedWorld (.ok "cloudwatch_alarm_list: []") [] none [] []

/-- The name `a` is listed twice; the backend reports it present at the first
check and absent at the second. -/
def vanishingAlarmWorld :
    World (List (Except String DescribeAlarmsOutput) × List (Except String Unit)) :=
  scriptedWorld (.ok "cloudwatch_alarm_list: [a, a]") ["a", "a"] none
    [.ok (metricOutput "a"), .ok emptyOutput] []

/-- The name `a` is listed twice and reported present twice; the first
deletion fails and the second is accepted. -/
def retriedDeleteWorld :
    World (List (Except String DescribeAlarmsOutput) × List (Except String Unit)) :=
  scriptedWorld (.ok "cloudwatch_alarm_list: [a, a]") ["a", "a"] none
    [.ok (metricOutput "a"), .ok (metricOutput "a")] [.error "Throttling", .ok ()]

/-- The file `cloudwatch-alarms.yaml` cannot be read. -/
def missingFileWorld :
    World (List (Except String DescribeAlarmsOutput) × List (Except String Unit)) :=
  scriptedWorld (.error "open cloudwatch-alarms.yaml: no such file or directory") [] none [] []

/-- The file is read but the SDK configuration cannot be loaded. -/
def badCredentialsWorld :
    World (List (Except String DescribeAlarmsOutput) × List (Except String Unit)) :=
  scriptedWorld (.ok "cloudwatch_alarm_list: [a]") ["a"] (some "failed to get shared config profile")
    [.ok (metricOutput "a")] []

/-! ## Reading traces: general facts -/

theorem existsCalls_append (t u : List Event) :
    existsCalls (t ++ u) = existsCalls t ++ existsCalls u := by
  simp [existsCalls, List.filterMap_append]

theorem deleteCalls_append (t u : List Event) :
    deleteCalls (t ++ u) = deleteCalls t ++ deleteCalls u := by
  simp [deleteCalls, List.filterMap_append]

theorem skippedAlarms_append (t u : List Event) :
    skippedAlarms (t ++ u) = skippedAlarms t ++ skippedAlarms u := by
  simp [skippedAlarms, List.filterMap_append]

theorem foundAlarms_append (t u : List Event) :
    foundAlarms (t ++ u) = foundAlarms t ++ foundAlarms u := by
  simp [foundAlarms, List.filterMap_append]

theorem missingAlarms_append (t u : List Event) :
    missingAlarms (t ++ u) = missingAlarms t ++ missingAlarms u := by
  simp [missingAlarms, List.filterMap_append]

theorem acceptedDeletes_append (t u : List Event) :
    acceptedDeletes (t ++ u) = acceptedDeletes t ++ acceptedDeletes u := by
  simp [acceptedDeletes, List.filterMap_append]

theorem rejectedDeletes_append (t u : List Event) :
    rejectedDeletes (t ++ u) = rejectedDeletes t ++ rejectedDeletes u := by
  simp [rejectedDeletes, List.filterMap_append]

/-- Every existence check falls in exactly one of the three classes. -/
theorem check_classes_perm (t : List Event) :
    (foundAlarms t ++ missingAlarms t ++ skippedAlarms t).Perm (existsCalls t) := by
  induction t with
  | nil => simp [foundAlarms, missingAlarms, skippedAlarms, existsCalls]
  | cons e t ih =>
    have hf := foundAlarms_append [e] t
    have hm := missingAlarms_append [e] t
    have hs := skippedAlarms_append [e] t
    have hc := existsCalls_append [e] t
    simp only [List.singleton_append] at hf hm hs hc
    rw [hf, hm, hs, hc]
    cases e with
    | AlarmExists n found err =>
      cases err with
      | some err =>
        have h1 : foundAlarms [Event.AlarmExists n found (some err)] = [] := by
          cases found <;> rfl
        have h2 : missingAlarms [Event.AlarmExists n found (some err)] = [] := by
          cases found <;> rfl
        have h3 : skippedAlarms [Event.AlarmExists n found (some err)] = [n] := rfl
        have h4 : existsCalls [Event.AlarmExists n found (some err)] = [n] := rfl
        rw [h1, h2, h3, h4]
        simp only [List.nil_append, List.singleton_append]
        have : (foundAlarms t ++ missingAlarms t ++ n :: skippedAlarms t).Perm
            (n :: (foundAlarms t ++ missingAlarms t ++ skippedAlarms t)) :=
          List.perm_middle
        exact this.trans (ih.cons n)
      | none =>
        cases found with
        | true =>
          have h1 : foundAlarms [Event.AlarmExists n true none] = [n] := rfl
          have h2 : missingAlarms [Event.AlarmExists n true none] = [] := rfl
          have h3 : skippedAlarms [Event.AlarmExists n true none] = [] := rfl
          have h4 : existsCalls [Event.AlarmExists n true none] = [n] := rfl
          rw [h1, h2, h3, h4]
          simpa using ih
        | false =>
          have h1 : foundAlarms [Event.AlarmExists n false none] = [] := rfl
          have h2 : missingAlarms [Event.AlarmExists n false none] = [n] := rfl
          have h3 : skippedAlarms [Event.AlarmExists n false none] = [] := rfl
          have h4 : existsCalls [Event.AlarmExists n false none] = [n] := rfl
          rw [h1, h2, h3, h4]
          simp only [List.nil_append, List.singleton_append, List.append_assoc]
          have : (foundAlarms t ++ n :: (missingAlarms t ++ skippedAlarms t)).Perm
              (n :: (foundAlarms t ++ (missingAlarms t ++ skippedAlarms t))) :=
            List.perm_middle
          refine this.trans ?_
          simpa [List.append_assoc] using ih.cons n
    | ReadFile f => simpa [foundAlarms, missingAlarms, skippedAlarms, existsCalls] using ih
    | LoadDefaultConfig o => simpa [foundAlarms, missingAlarms, skippedAlarms, existsCalls] using ih
    | Prompt c => simpa [foundAlarms, missingAlarms, skippedAlarms, existsCalls] using ih
    | Scanln => simpa [foundAlarms, missingAlarms, skippedAlarms, existsCalls] using ih
    | DeleteAlarm n err => simpa [foundAlarms, missingAlarms, skippedAlarms, existsCalls] using ih

/-- Every deletion either was accepted or returned an error. -/
theorem delete_classes_perm (t : List Event) :
    (acceptedDeletes t ++ rejectedDeletes t).Perm (deleteCalls t) := by
  induction t with
  | nil => simp [acceptedDeletes, rejectedDeletes, deleteCalls]
  | cons e t ih =>
    have ha := acceptedDeletes_append [e] t
    have hr := rejectedDeletes_append [e] t
    have hc := deleteCalls_append [e] t
    simp only [List.singleton_append] at ha hr hc
    rw [ha, hr, hc]
    cases e with
    | DeleteAlarm n err =>
      cases err with
      | some err =>
        have h1 : acceptedDeletes [Event.DeleteAlarm n (some err)] = [] := rfl
        have h2 : rejectedDeletes [Event.DeleteAlarm n (some err)] = [n] := rfl
        have h3 : deleteCalls [Event.DeleteAlarm n (some err)] = [n] := rfl
        rw [h1, h2, h3]
        simp only [List.nil_append, List.singleton_append]
        exact List.perm_middle.trans (ih.cons n)
      | none =>
        have h1 : acceptedDeletes [Event.DeleteAlarm n none] = [n] := rfl
        have h2 : rejectedDeletes [Event.DeleteAlarm n none] = [] := rfl
        have h3 : deleteCalls [Event.DeleteAlarm n none] = [n] := rfl
        rw [h1, h2, h3]
        simpa using ih
    | ReadFile f => simpa [acceptedDeletes, rejectedDeletes, deleteCalls] using ih
    | LoadDefaultConfig o => simpa [acceptedDeletes, rejectedDeletes, deleteCalls] using ih
    | Prompt c => simpa [acceptedDeletes, rejectedDeletes, deleteCalls] using ih
    | Scanln => simpa [acceptedDeletes, rejectedDeletes, deleteCalls] using ih
    | AlarmExists n found err => simpa [acceptedDeletes, rejectedDeletes, deleteCalls] using ih

/-- A stretch of existence checks holds no deletion. -/
theorem checks_no_delete (t : List Event) (h : ∀ e ∈ t, e.isCheck = true) :
    deleteCalls t = [] ∧ acceptedDeletes t = [] ∧ rejectedDeletes t = [] ∧
      ∀ e ∈ t, e.isGate = false := by
  induction t with
  | nil => simp [deleteCalls, acceptedDeletes, rejectedDeletes]
  | cons e t ih =>
    have he := h e (List.mem_cons_self e t)
    have ht := ih (fun x hx => h x (List.mem_cons_of_mem e hx))
    cases e with
    | AlarmExists n found err =>
      refine ⟨?_, ?_, ?_, ?_⟩
      · simpa [deleteCalls] using ht.1
      · simpa [acceptedDeletes] using ht.2.1
      · simpa [rejectedDeletes] using ht.2.2.1
      · intro x hx
        rcases List.mem_cons.1 hx with rfl | hx
        · rfl
        · exact ht.2.2.2 x hx
    | ReadFile f => simp [Event.isCheck] at he
    | LoadDefaultConfig o => simp [Event.isCheck] at he
    | Prompt c => simp [Event.isCheck] at he
    | Scanln => simp [Event.isCheck] at he
    | DeleteAlarm n err => simp [Event.isCheck] at he

/-- A stretch of deletions holds no existence check. -/
theorem deletes_no_check (t : List Event) (h : ∀ e ∈ t, e.isDelete = true) :
    existsCalls t = [] ∧ foundAlarms t = [] ∧ missingAlarms t = [] ∧ skippedAlarms t = [] ∧
      ∀ e ∈ t, e.isGate = false := by
  induction t with
  | nil => simp [existsCalls, foundAlarms, missingAlarms, skippedAlarms]
  | cons e t ih =>
    have he := h e (List.mem_cons_self e t)
    have ht := ih (fun x hx => h x (List.mem_cons_of_mem e hx))
    cases e with
    | DeleteAlarm n err =>
      refine ⟨?_, ?_, ?_, ?_, ?_⟩
      · simpa [existsCalls] using ht.1
      · simpa [foundAlarms] using ht.2.1
      · simpa [missingAlarms] using ht.2.2.1
      · simpa [skippedAlarms] using ht.2.2.2.1
      · intro x hx
        rcases List.mem_cons.1 hx with rfl | hx
        · rfl
        · exact ht.2.2.2.2 x hx
    | ReadFile f => simp [Event.isDelete] at he
    | LoadDefaultConfig o => simp [Event.isDelete] at he
    | Prompt c => simp [Event.isDelete] at he
    | Scanln => simp [Event.isDelete] at he
    | AlarmExists n found err => simp [Event.isDelete] at he

/-! ## The two loops -/

/-- One iteration of the first loop: one existence check is logged, the name
goes to the slice its answer selects, and the deletion slices are untouched. -/
theorem checkStep_spec (w : World σ) (st : State σ) (alarmName : String) :
    ∃ found err,
      (checkStep w st alarmName).trace = st.trace ++ [Event.AlarmExists alarmName found err] ∧
      (checkStep w st alarmName).existingAlarms =
        st.existingAlarms ++ foundAlarms [Event.AlarmExists alarmName found err] ∧
      (checkStep w st alarmName).nonExistentAlarms =
        st.nonExistentAlarms ++ missingAlarms [Event.AlarmExists alarmName found err] ∧
      (checkStep w st alarmName).deletedAlarms = st.deletedAlarms ∧
      (checkStep w st alarmName).failedDeletions = st.failedDeletions := by
  unfold checkStep
  rcases hA : AlarmExists w st.cw alarmName with ⟨cw', found, err⟩
  cases err with
  | some err =>
    refine ⟨found, some err, rfl, ?_, ?_, rfl, rfl⟩
    · cases found <;> simp [foundAlarms]
    · cases found <;> simp [missingAlarms]
  | none =>
    cases found with
    | true => exact ⟨true, none, rfl, rfl, by simp [missingAlarms], rfl, rfl⟩
    | false => exact ⟨false, none, rfl, by simp [foundAlarms], rfl, rfl, rfl⟩

/-- The first loop: it logs one existence check per name, in list order, and
the two check slices grow by the names found and the names missing. -/
theorem checkPhase_spec (w : World σ) (alarmNames : List String) (st : State σ) :
    ∃ evs,
      (checkPhase w st alarmNames).trace = st.trace ++ evs ∧
      (∀ e ∈ evs, e.isCheck = true) ∧
      existsCalls evs = alarmNames ∧
      (checkPhase w st alarmNames).existingAlarms = st.existingAlarms ++ foundAlarms evs ∧
      (checkPhase w st alarmNames).nonExistentAlarms = st.nonExistentAlarms ++ missingAlarms evs ∧
      (checkPhase w st alarmNames).deletedAlarms = st.deletedAlarms ∧
      (checkPhase w st alarmNames).failedDeletions = st.failedDeletions := by
  induction alarmNames generalizing st with
  | nil => exact ⟨[], by simp [checkPhase], by simp, rfl, by simp [checkPhase, foundAlarms],
      by simp [checkPhase, missingAlarms], rfl, rfl⟩
  | cons n ns ih =>
    obtain ⟨found, err, h1, h2, h3, h4, h5⟩ := checkStep_spec w st n
    obtain ⟨evs, k1, k2, k3, k4, k5, k6, k7⟩ := ih (checkStep w st n)
    have hstep : checkPhase w st (n :: ns) = checkPhase w (checkStep w st n) ns := rfl
    refine ⟨Event.AlarmExists n found err :: evs, ?_, ?_, ?_, ?_, ?_, ?_, ?_⟩
    · rw [hstep, k1, h1]; simp
    · intro e he
      rcases List.mem_cons.1 he with rfl | he
      · rfl
      · exact k2 e he
    · have := existsCalls_append [Event.AlarmExists n found err] evs
      simp only [List.singleton_append] at this
      rw [this, k3]; rfl
    · have := foundAlarms_append [Event.AlarmExists n found err] evs
      simp only [List.singleton_append] at this
      rw [hstep, k4, h2, this, List.append_assoc]
    · have := missingAlarms_append [Event.AlarmExists n found err] evs
      simp only [List.singleton_append] at this
      rw [hstep, k5, h3, this, List.append_assoc]
    · rw [hstep, k6, h4]
    · rw [hstep, k7, h5]

/-- One iteration of the second loop: one deletion is logged, the name goes
to `deletedAlarms` or to `failedDeletions`, and the check slices are
untouched. -/
theorem deleteStep_spec (w : World σ) (st : State σ) (alarmName : String) :
    ∃ err,
      (deleteStep w st alarmName).trace = st.trace ++ [Event.DeleteAlarm alarmName err] ∧
      (deleteStep w st alarmName).deletedAlarms =
        st.deletedAlarms ++ acceptedDeletes [Event.DeleteAlarm alarmName err] ∧
      (deleteStep w st alarmName).failedDeletions =
        st.failedDeletions ++ rejectedDeletes [Event.DeleteAlarm alarmName err] ∧
      (deleteStep w st alarmName).existingAlarms = st.existingAlarms ∧
      (deleteStep w st alarmName).nonExistentAlarms = st.nonExistentAlarms := by
  unfold deleteStep
  rcases hD : DeleteAlarm w st.cw alarmName with ⟨cw', err⟩
  cases err with
  | some err => exact ⟨some err, rfl, by simp [acceptedDeletes], rfl, rfl, rfl⟩
  | none => exact ⟨none, rfl, rfl, by simp [rejectedDeletes], rfl, rfl⟩

/-- The second loop: it logs one deletion per name, in list order, and the
two deletion slices grow by the names accepted and the names rejected. -/
theorem deletePhase_spec (w : World σ) (names : List String) (st : State σ) :
    ∃ evs,
      (deletePhase w st names).trace = st.trace ++ evs ∧
      (∀ e ∈ evs, e.isDelete = true) ∧
      deleteCalls evs = names ∧
      (deletePhase w st names).deletedAlarms = st.deletedAlarms ++ acceptedDeletes evs ∧
      (deletePhase w st names).failedDeletions = st.failedDeletions ++ rejectedDeletes evs ∧
      (deletePhase w st names).existingAlarms = st.existingAlarms ∧
      (deletePhase w st names).nonExistentAlarms = st.nonExistentAlarms := by
  induction names generalizing st with
  | nil => exact ⟨[], by simp [deletePhase], by simp, rfl, by simp [deletePhase, acceptedDeletes],
      by simp [deletePhase, rejectedDeletes], rfl, rfl⟩
  | cons n ns ih =>
    obtain ⟨err, h1, h2, h3, h4, h5⟩ := deleteStep_spec w st n
    obtain ⟨evs, k1, k2, k3, k4, k5, k6, k7⟩ := ih (deleteStep w st n)
    have hstep : deletePhase w st (n :: ns) = deletePhase w (deleteStep w st n) ns := rfl
    refine ⟨Event.DeleteAlarm n err :: evs, ?_, ?_, ?_, ?_, ?_, ?_, ?_⟩
    · rw [hstep, k1, h1]; simp
    · intro e he
      rcases List.mem_cons.1 he with rfl | he
      · rfl
      · exact k2 e he
    · have := deleteCalls_append [Event.DeleteAlarm n err] evs
      simp only [List.singleton_append] at this
      rw [this, k3]; rfl
    · have := acceptedDeletes_append [Event.DeleteAlarm n err] evs
      simp only [List.singleton_append] at this
      rw [hstep, k4, h2, this, List.append_assoc]
    · have := rejectedDeletes_append [Event.DeleteAlarm n err] evs
      simp only [List.singleton_append] at this
      rw [hstep, k5, h3, this, List.append_assoc]
    · rw [hstep, k6, h4]
    · rw [hstep, k7, h5]

/-! ## The shape of a run -/

/-- The condition of the confirmation test in `main` is the negation of
`affirmative`. -/
theorem cancel_iff (confirmation : String) :
    (confirmation ≠ "yes" ∧ confirmation ≠ "y" ∧ confirmation ≠ "YES" ∧ confirmation ≠ "Y") ↔
      ¬ affirmative confirmation := by
  unfold affirmative
  tauto

/-- Every run of `main` has one of five shapes: the loader fails; the client
cannot be built; nothing is found; the operator declines; the operator
accepts and every found alarm is deleted or fails to be. -/
theorem main_cases (w : World σ) (env region confirmation : String) :
    ((∃ err, LoadAlarmsFromYAML w "cloudwatch-alarms.yaml" = .error err) ∧
      main w env region confirmation = abort [Event.ReadFile "cloudwatch-alarms.yaml"] 0) ∨
    ((∃ alarmNames err, LoadAlarmsFromYAML w "cloudwatch-alarms.yaml" = .ok alarmNames ∧
        NewCloudWatchManager w env region = .error err) ∧
      main w env region confirmation = abort (startTrace env region) 1) ∨
    (∃ alarmNames cw evs,
      LoadAlarmsFromYAML w "cloudwatch-alarms.yaml" = .ok alarmNames ∧
      NewCloudWatchManager w env region = .ok cw ∧
      (∀ e ∈ evs, e.isCheck = true) ∧ existsCalls evs = alarmNames ∧
      ((foundAlarms evs = [] ∧
          main w env region confirmation =
            { existingAlarms := []
              nonExistentAlarms := missingAlarms evs
              deletedAlarms := []
              failedDeletions := []
              trace := startTrace env region ++ evs
              exitCode := 0 }) ∨
        (foundAlarms evs ≠ [] ∧ ¬ affirmative confirmation ∧
          main w env region confirmation =
            { existingAlarms := foundAlarms evs
              nonExistentAlarms := missingAlarms evs
              deletedAlarms := []
              failedDeletions := []
              trace := startTrace env region ++ evs ++
                [Event.Prompt (foundAlarms evs).length, Event.Scanln]
              exitCode := 0 }) ∨
        (foundAlarms evs ≠ [] ∧ affirmative confirmation ∧
          ∃ dvs, (∀ e ∈ dvs, e.isDelete = true) ∧ deleteCalls dvs = foundAlarms evs ∧
            main w env region confirmation =
              { existingAlarms := foundAlarms evs
                nonExistentAlarms := missingAlarms evs
                deletedAlarms := acceptedDeletes dvs
                failedDeletions := rejectedDeletes dvs
                trace := startTrace env region ++ evs ++
                  [Event.Prompt (foundAlarms evs).length, Event.Scanln] ++ dvs
                exitCode := 0 }))) := by
  rcases hL : LoadAlarmsFromYAML w "cloudwatch-alarms.yaml" with err | alarmNames
  · left
    refine ⟨⟨err, rfl⟩, ?_⟩
    simp only [main, hL]
  · right
    rcases hC : NewCloudWatchManager w env region with err | cw
    · left
      refine ⟨⟨alarmNames, err, rfl, rfl⟩, ?_⟩
      simp only [main, hL, hC, startTrace, List.singleton_append]
    · right
      obtain ⟨evs, k1, k2, k3, k4, k5, k6, k7⟩ := checkPhase_spec w alarmNames
        { cw := cw
          existingAlarms := []
          nonExistentAlarms := []
          deletedAlarms := []
          failedDeletions := []
          trace := startTrace env region }
      simp only [List.nil_append] at k4 k5 k6 k7
      refine ⟨alarmNames, cw, evs, rfl, rfl, k2, k3, ?_⟩
      by_cases hF : foundAlarms evs = []
      · left
        refine ⟨hF, ?_⟩
        have hlen : (checkPhase w
            { cw := cw
              existingAlarms := []
              nonExistentAlarms := []
              deletedAlarms := []
              failedDeletions := []
              trace := startTrace env region } alarmNames).existingAlarms.length = 0 := by
          rw [k4, hF]; rfl
        simp only [main, hL, hC]
        simp only [startTrace, List.singleton_append] at hlen k1 k4 k5 k6 k7 ⊢
        rw [if_pos hlen]
        simp only [State.finish, k1, k4, k5, k6, k7, hF]
      · right
        have hlen : ¬ (checkPhase w
            { cw := cw
              existingAlarms := []
              nonExistentAlarms := []
              deletedAlarms := []
              failedDeletions := []
              trace := startTrace env region } alarmNames).existingAlarms.length = 0 := by
          rw [k4]
          intro h0
          exact hF (List.length_eq_zero.1 h0)
        by_cases hA : affirmative confirmation
        · right
          refine ⟨hF, hA, ?_⟩
          have hcond : ¬ (confirmation ≠ "yes" ∧ confirmation ≠ "y" ∧ confirmation ≠ "YES" ∧
              confirmation ≠ "Y") := fun h => (cancel_iff confirmation).1 h hA
          obtain ⟨dvs, d1, d2, d3, d4, d5, d6, d7⟩ := deletePhase_spec w (foundAlarms evs)
            { cw := (checkPhase w
                { cw := cw
                  existingAlarms := []
                  nonExistentAlarms := []
                  deletedAlarms := []
                  failedDeletions := []
                  trace := startTrace env region } alarmNames).cw
              existingAlarms := foundAlarms evs
              nonExistentAlarms := missingAlarms evs
              deletedAlarms := []
              failedDeletions := []
              trace := startTrace env region ++ evs ++
                [Event.Prompt (foundAlarms evs).length, Event.Scanln] }
          simp only [List.nil_append] at d4 d5 d6 d7
          refine ⟨dvs, d2, d3, ?_⟩
          simp only [main, hL, hC]
          simp only [startTrace, List.singleton_append] at hlen k1 k4 k5 k6 k7 d1 d4 d5 d6 d7 ⊢
          rw [if_neg hlen, if_neg hcond]
          simp only [State.finish, k1, k4, k5, k6, k7, d1, d4, d5, d6, d7]
        · left
          refine ⟨hF, hA, ?_⟩
          have hcond : confirmation ≠ "yes" ∧ confirmation ≠ "y" ∧ confirmation ≠ "YES" ∧
              confirmation ≠ "Y" := (cancel_iff confirmation).2 hA
          simp only [main, hL, hC]
          simp only [startTrace, List.singleton_append] at hlen k1 k4 k5 k6 k7 ⊢
          rw [if_neg hlen, if_pos hcond]
          simp only [State.finish, k1, k4, k5, k6, k7]

/-- How the trace of a run that reached the first loop is read: the checks
are those of the first loop and the deletions those of the second. -/
theorem run_reads (env region : String) (evs gate dvs : List Event)
    (hc : ∀ e ∈ evs, e.isCheck = true)
    (hg : gate = [] ∨ ∃ n, gate = [Event.Prompt n, Event.Scanln])
    (hd : ∀ e ∈ dvs, e.isDelete = true) :
    existsCalls (startTrace env region ++ evs ++ gate ++ dvs) = existsCalls evs ∧
    foundAlarms (startTrace env region ++ evs ++ gate ++ dvs) = foundAlarms evs ∧
    missingAlarms (startTrace env region ++ evs ++ gate ++ dvs) = missingAlarms evs ∧
    skippedAlarms (startTrace env region ++ evs ++ gate ++ dvs) = skippedAlarms evs ∧
    deleteCalls (startTrace env region ++ evs ++ gate ++ dvs) = deleteCalls dvs := by
  obtain ⟨c1, _, _, _⟩ := checks_no_delete evs hc
  obtain ⟨d1, d2, d3, d4, _⟩ := deletes_no_check dvs hd
  have s1 : existsCalls (startTrace env region) = [] := rfl
  have s2 : foundAlarms (startTrace env region) = [] := rfl
  have s3 : missingAlarms (startTrace env region) = [] := rfl
  have s4 : skippedAlarms (startTrace env region) = [] := rfl
  have s5 : deleteCalls (startTrace env region) = [] := rfl
  have g : existsCalls gate = [] ∧ foundAlarms gate = [] ∧ missingAlarms gate = [] ∧
      skippedAlarms gate = [] ∧ deleteCalls gate = [] := by
    rcases hg with rfl | ⟨n, rfl⟩
    · exact ⟨rfl, rfl, rfl, rfl, rfl⟩
    · exact ⟨rfl, rfl, rfl, rfl, rfl⟩
  obtain ⟨g1, g2, g3, g4, g5⟩ := g
  refine ⟨?_, ?_, ?_, ?_, ?_⟩
  · simp [existsCalls_append, s1, g1, d1]
  · simp [foundAlarms_append, s2, g2, d2]
  · simp [missingAlarms_append, s3, g3, d3]
  · simp [skippedAlarms_append, s4, g4, d4]
  · simp [deleteCalls_append, s5, g5, c1]

/-- No event of a trace of this form is a prompt or a read of the answer. -/
theorem no_gate_of_checks (env region : String) (evs : List Event)
    (hc : ∀ e ∈ evs, e.isCheck = true) :
    ∀ e ∈ startTrace env region ++ evs, e.isGate = false := by
  intro e he
  rcases List.mem_append.1 he with h | h
  · simp only [startTrace, List.mem_cons, List.mem_singleton, List.not_mem_nil, or_false] at h
    rcases h with rfl | rfl <;> rfl
  · exact (checks_no_delete evs hc).2.2.2 e h

/-- A run in which the list was loaded and the client built: the first loop
checked every name of the list, the two check slices and the skipped names
are read off its events, the process ends with status 0, and the deletions
are none or those of the names found. -/
theorem main_loaded (w : World σ) (env region confirmation : String)
    (alarmNames : List String) (cw : σ)
    (hL : LoadAlarmsFromYAML w "cloudwatch-alarms.yaml" = .ok alarmNames)
    (hC : NewCloudWatchManager w env region = .ok cw) :
    ∃ evs, (∀ e ∈ evs, e.isCheck = true) ∧ existsCalls evs = alarmNames ∧
      (main w env region confirmation).existingAlarms = foundAlarms evs ∧
      (main w env region confirmation).nonExistentAlarms = missingAlarms evs ∧
      existsCalls (main w env region confirmation).trace = existsCalls evs ∧
      foundAlarms (main w env region confirmation).trace = foundAlarms evs ∧
      missingAlarms (main w env region confirmation).trace = missingAlarms evs ∧
      skippedAlarms (main w env region confirmation).trace = skippedAlarms evs ∧
      (main w env region confirmation).exitCode = 0 ∧
      (deleteCalls (main w env region confirmation).trace = [] ∨
        deleteCalls (main w env region confirmation).trace = foundAlarms evs) := by
  rcases main_cases w env region confirmation with
    ⟨⟨err, he⟩, _⟩ | ⟨⟨L, err, _, he⟩, _⟩ | ⟨L, cw', evs, hL', _, hck, hcalls, h3⟩
  · rw [hL] at he; cases he
  · rw [hC] at he; cases he
  · rw [hL] at hL'
    cases hL'
    refine ⟨evs, hck, hcalls, ?_⟩
    rcases h3 with ⟨hF, hm⟩ | ⟨_, _, hm⟩ | ⟨_, _, dvs, hd, hdc, hm⟩
    · rw [hm]
      have h := run_reads env region evs [] [] hck (Or.inl rfl) (by simp)
      simp only [List.append_nil] at h
      exact ⟨hF.symm, rfl, h.1, h.2.1, h.2.2.1, h.2.2.2.1, rfl, Or.inl h.2.2.2.2⟩
    · rw [hm]
      have h := run_reads env region evs
        [Event.Prompt (foundAlarms evs).length, Event.Scanln] [] hck (Or.inr ⟨_, rfl⟩) (by simp)
      simp only [List.append_nil] at h
      exact ⟨rfl, rfl, h.1, h.2.1, h.2.2.1, h.2.2.2.1, rfl, Or.inl h.2.2.2.2⟩
    · rw [hm]
      have h := run_reads env region evs
        [Event.Prompt (foundAlarms evs).length, Event.Scanln] dvs hck (Or.inr ⟨_, rfl⟩) hd
      exact ⟨rfl, rfl, h.1, h.2.1, h.2.2.1, h.2.2.2.1, rfl, Or.inr (by rw [h.2.2.2.2, hdc])⟩

/-- A run whose loader fails ends at once: status 0 and nothing in the trace
but the read of the file. -/
theorem main_of_load_error (w : World σ) (env region confirmation err : String)
    (hL : LoadAlarmsFromYAML w "cloudwatch-alarms.yaml" = .error err) :
    main w env region confirmation = abort [Event.ReadFile "cloudwatch-alarms.yaml"] 0 := by
  simp only [main, hL]

/-- A run whose client cannot be built ends with status 1 before the first
existence check. -/
theorem main_of_client_error (w : World σ) (env region confirmation err : String)
    (alarmNames : List String)
    (hL : LoadAlarmsFromYAML w "cloudwatch-alarms.yaml" = .ok alarmNames)
    (hC : NewCloudWatchManager w env region = .error err) :
    main w env region confirmation = abort (startTrace env region) 1 := by
  simp only [main, hL, hC, startTrace, List.singleton_append]

/-- When the string stored in `confirmation` is none of the four literals, the
run calls `DeleteAlarm` not once and ends with `deletedAlarms` and
`failedDeletions` empty. -/
theorem main_decline (w : World σ) (env region confirmation : String)
    (hno : confirmation ≠ "yes" ∧ confirmation ≠ "y" ∧ confirmation ≠ "YES" ∧
      confirmation ≠ "Y") :
    deleteCalls (main w env region confirmation).trace = [] ∧
    (main w env region confirmation).deletedAlarms = [] ∧
    (main w env region confirmation).failedDeletions = [] := by
  have hnA : ¬ affirmative confirmation := (cancel_iff confirmation).1 hno
  rcases main_cases w env region confirmation with
    ⟨_, hm⟩ | ⟨_, hm⟩ | ⟨L, cw, evs, _, _, hck, _, h3⟩
  · rw [hm]; exact ⟨rfl, rfl, rfl⟩
  · rw [hm]; exact ⟨rfl, rfl, rfl⟩
  · rcases h3 with ⟨_, hm⟩ | ⟨_, _, hm⟩ | ⟨_, hA, _⟩
    · rw [hm]
      have h := run_reads env region evs [] [] hck (Or.inl rfl) (by simp)
      simp only [List.append_nil] at h
      exact ⟨h.2.2.2.2, rfl, rfl⟩
    · rw [hm]
      have h := run_reads env region evs
        [Event.Prompt (foundAlarms evs).length, Event.Scanln] [] hck (Or.inr ⟨_, rfl⟩) (by simp)
      simp only [List.append_nil] at h
      exact ⟨h.2.2.2.2, rfl, rfl⟩
    · exact absurd hA hnA

/-- A rune that is no white space is neither a carriage return nor a
newline. -/
theorem not_space_ne (r : Char) (h : isSpace r = false) : r ≠ '\r' ∧ r ≠ '\n' := by
  constructor
  · rintro rfl
    exact absurd h (by decide)
  · rintro rfl
    exact absurd h (by decide)

/-- At a rune that is no white space `SkipSpace` stops at once. -/
theorem SkipSpace_of_not_space (r : Char) (rest : List Char) (h : isSpace r = false) :
    SkipSpace (r :: rest) = some (r :: rest) := by
  obtain ⟨h1, h2⟩ := not_space_ne r h
  simp [SkipSpace, h1, h2, h]

/-- A word without white space, followed by a newline, is read whole. -/
theorem token_word (word : List Char) (h : ∀ c ∈ word, isSpace c = false) :
    token (word ++ ['\n']) = word := by
  induction word with
  | nil => decide
  | cons c cs ih =>
    have hc := h c (List.mem_cons_self c cs)
    have hcs := ih (fun x hx => h x (List.mem_cons_of_mem c hx))
    simp [token, hc, hcs]

/-- A line that holds no white space is stored as it is. -/
theorem Scanln_word (line : String) (h : ∀ c ∈ line.data, isSpace c = false) :
    Scanln (line ++ "\n") = line := by
  have hd : (line ++ "\n").data = line.data ++ ['\n'] := by
    rw [String.data_append]
  unfold Scanln convertString
  rw [hd]
  rcases hl : line.data with _ | ⟨c, cs⟩
  · have : line = "" := by
      cases line
      simp only at hl
      subst hl
      rfl
    subst this
    decide
  · have hc : isSpace c = false := h c (by rw [hl]; exact List.mem_cons_self c cs)
    have hw : ∀ x ∈ c :: cs, isSpace x = false := by
      intro x hx
      exact h x (by rw [hl]; exact hx)
    have hs : SkipSpace (c :: cs ++ ['\n']) = some (c :: cs ++ ['\n']) :=
      SkipSpace_of_not_space c (cs ++ ['\n']) hc
    have ht := token_word (c :: cs) hw
    simp only [List.cons_append] at hs ht ⊢
    simp only [hs, ht]
    cases line
    simp only at hl
    subst hl
    rfl

/-! ## The claims -/

/-- C1, the claim as stated fails: `a` and `b` exist and the operator types
`yes please`, which is none of the four literals; `fmt.Scanln` stores the word
`yes`, and the run deletes both alarms. -/
theorem yes_please_deletes :
    ("yes please" ≠ "yes" ∧ "yes please" ≠ "y" ∧ "yes please" ≠ "YES" ∧ "yes please" ≠ "Y") ∧
    Scanln "yes please\n" = "yes" ∧
    (mainWithStdin bothExistWorld "currentsite-dev" "ap-northeast-1"
      "yes please\n").existingAlarms = ["a", "b"] ∧
    deleteCalls (mainWithStdin bothExistWorld "currentsite-dev" "ap-northeast-1"
      "yes please\n").trace = ["a", "b"] ∧
    (mainWithStdin bothExistWorld "currentsite-dev" "ap-northeast-1"
      "yes please\n").deletedAlarms = ["a", "b"] := by
  decide

/-- C1, amended: when the word that `fmt.Scanln` stores from the confirmation
input (its first run of characters that are no white space, the empty string
for an empty line or at the end of the input) is none of `yes`, `y`, `YES`,
`Y`, the run calls `DeleteAlarm` not once and ends with `deletedAlarms` and
`failedDeletions` empty, whatever the alarm list and the backend; a line
without white space is stored whole, so this holds for every such line that
is none of the four literals. -/
theorem decline_deletes_nothing (w : World σ) (env region : String) :
    (∀ stdin, (Scanln stdin ≠ "yes" ∧ Scanln stdin ≠ "y" ∧ Scanln stdin ≠ "YES" ∧
        Scanln stdin ≠ "Y") →
      deleteCalls (mainWithStdin w env region stdin).trace = [] ∧
      (mainWithStdin w env region stdin).deletedAlarms = [] ∧
      (mainWithStdin w env region stdin).failedDeletions = []) ∧
    (∀ line : String, (∀ c ∈ line.data, isSpace c = false) →
      (line ≠ "yes" ∧ line ≠ "y" ∧ line ≠ "YES" ∧ line ≠ "Y") →
      Scanln (line ++ "\n") = line ∧
      deleteCalls (mainWithStdin w env region (line ++ "\n")).trace = [] ∧
      (mainWithStdin w env region (line ++ "\n")).deletedAlarms = [] ∧
      (mainWithStdin w env region (line ++ "\n")).failedDeletions = []) := by
  constructor
  · intro stdin hno
    exact main_decline w env region (Scanln stdin) hno
  · intro line hword hno
    have hS := Scanln_word line hword
    refine ⟨hS, ?_⟩
    unfold mainWithStdin
    rw [hS]
    exact main_decline w env region line hno

/-- Scenario C: `a` and `b` exist and the operator types `no`; and the same
with an empty line. -/
theorem decline_deletes_nothing_witness :
    (mainWithStdin bothExistWorld "currentsite-dev" "ap-northeast-1" "no\n").existingAlarms =
      ["a", "b"] ∧
    (Scanln ("no" ++ "\n") = "no" ∧
      deleteCalls (mainWithStdin bothExistWorld "currentsite-dev" "ap-northeast-1"
        ("no" ++ "\n")).trace = [] ∧
      (mainWithStdin bothExistWorld "currentsite-dev" "ap-northeast-1"
        ("no" ++ "\n")).deletedAlarms = [] ∧
      (mainWithStdin bothExistWorld "currentsite-dev" "ap-northeast-1"
        ("no" ++ "\n")).failedDeletions = []) ∧
    (deleteCalls (mainWithStdin bothExistWorld "currentsite-dev" "ap-northeast-1" "\n").trace =
        [] ∧
      (mainWithStdin bothExistWorld "currentsite-dev" "ap-northeast-1" "\n").deletedAlarms = [] ∧
      (mainWithStdin bothExistWorld "currentsite-dev" "ap-northeast-1" "\n").failedDeletions =
        []) :=
  ⟨by decide,
    (decline_deletes_nothing bothExistWorld "currentsite-dev" "ap-northeast-1").2 "no"
      (by decide) (by decide),
    (decline_deletes_nothing bothExistWorld "currentsite-dev" "ap-northeast-1").1 "\n"
      (by decide)⟩

/-- C2: when the confirmation is one of `yes`, `y`, `YES`, `Y`, the names
passed to `DeleteAlarm`, in call order, are exactly `existingAlarms`, which
is the list of names whose check answered "exists", in check order; so there
are `|existingAlarms|` calls whatever each of them returns. -/
theorem accept_deletes_each_existing (w : World σ) (env region confirmation : String)
    (hyes : confirmation = "yes" ∨ confirmation = "y" ∨ confirmation = "YES" ∨
      confirmation = "Y") :
    deleteCalls (main w env region confirmation).trace =
      (main w env region confirmation).existingAlarms ∧
    (main w env region confirmation).existingAlarms =
      foundAlarms (main w env region confirmation).trace ∧
    (deleteCalls (main w env region confirmation).trace).length =
      (main w env region confirmation).existingAlarms.length := by
  have hA : affirmative confirmation := hyes
  have key : deleteCalls (main w env region confirmation).trace =
        (main w env region confirmation).existingAlarms ∧
      (main w env region confirmation).existingAlarms =
        foundAlarms (main w env region confirmation).trace := by
    rcases main_cases w env region confirmation with
      ⟨_, hm⟩ | ⟨_, hm⟩ | ⟨L, cw, evs, _, _, hck, _, h3⟩
    · rw [hm]; exact ⟨rfl, rfl⟩
    · rw [hm]; exact ⟨rfl, rfl⟩
    · rcases h3 with ⟨hF, hm⟩ | ⟨_, hnA, _⟩ | ⟨_, _, dvs, hd, hdc, hm⟩
      · rw [hm]
        have h := run_reads env region evs [] [] hck (Or.inl rfl) (by simp)
        simp only [List.append_nil] at h
        exact ⟨h.2.2.2.2, by rw [h.2.1, hF]⟩
      · exact absurd hA hnA
      · rw [hm]
        have h := run_reads env region evs
          [Event.Prompt (foundAlarms evs).length, Event.Scanln] dvs hck (Or.inr ⟨_, rfl⟩) hd
        exact ⟨by rw [h.2.2.2.2, hdc], by rw [h.2.1]⟩
  exact ⟨key.1, key.2, by rw [key.1]⟩

/-- The alarms `a` and `b` exist, the operator answers `yes` and deleting `a`
fails: the deletion of `b` is attempted all the same. -/
theorem accept_deletes_each_existing_witness :
    deleteCalls (main firstDeleteFailsWorld "currentsite-dev" "ap-northeast-1" "yes").trace =
      ["a", "b"] ∧
    (deleteCalls (main firstDeleteFailsWorld "currentsite-dev" "ap-northeast-1" "yes").trace =
        (main firstDeleteFailsWorld "currentsite-dev" "ap-northeast-1" "yes").existingAlarms ∧
      (main firstDeleteFailsWorld "currentsite-dev" "ap-northeast-1" "yes").existingAlarms =
        foundAlarms (main firstDeleteFailsWorld "currentsite-dev" "ap-northeast-1" "yes").trace ∧
      (deleteCalls
          (main firstDeleteFailsWorld "currentsite-dev" "ap-northeast-1" "yes").trace).length =
        (main firstDeleteFailsWorld "currentsite-dev" "ap-northeast-1" "yes").existingAlarms.length) :=
  ⟨by decide,
    accept_deletes_each_existing firstDeleteFailsWorld "currentsite-dev" "ap-northeast-1" "yes"
      (Or.inl rfl)⟩

/-- C3, the claim as stated fails: the name `a` is listed twice, the backend
reports it present at the first check and absent at the second, and the run
ends with `a` both in `existingAlarms` and in `nonExistentAlarms`. -/
theorem check_buckets_overlap :
    (main vanishingAlarmWorld "currentsite-dev" "ap-northeast-1" "no").existingAlarms = ["a"] ∧
    (main vanishingAlarmWorld "currentsite-dev" "ap-northeast-1" "no").nonExistentAlarms = ["a"] ∧
    ¬ List.Disjoint
      (main vanishingAlarmWorld "currentsite-dev" "ap-northeast-1" "no").existingAlarms
      (main vanishingAlarmWorld "currentsite-dev" "ap-northeast-1" "no").nonExistentAlarms :=
  ⟨by decide, by decide, fun h => @h "a" (by decide) (by decide)⟩

/-- C3, amended: for every alarm list and every backend, the names found
existing, the names found absent and the names skipped on a check error
together are the alarm list as a multiset, so their sizes add up to the
length of the list; the three are pairwise disjoint when no name is listed
twice. -/
theorem check_partitions_list (w : World σ) (env region confirmation : String)
    (alarmNames : List String) (cw : σ)
    (hL : LoadAlarmsFromYAML w "cloudwatch-alarms.yaml" = .ok alarmNames)
    (hC : NewCloudWatchManager w env region = .ok cw) :
    ((main w env region confirmation).existingAlarms ++
        (main w env region confirmation).nonExistentAlarms ++
        skippedAlarms (main w env region confirmation).trace).Perm alarmNames ∧
    alarmNames.length =
      (main w env region confirmation).existingAlarms.length +
        (main w env region confirmation).nonExistentAlarms.length +
        (skippedAlarms (main w env region confirmation).trace).length ∧
    (alarmNames.Nodup →
      List.Disjoint (main w env region confirmation).existingAlarms
        (main w env region confirmation).nonExistentAlarms ∧
      List.Disjoint (main w env region confirmation).existingAlarms
        (skippedAlarms (main w env region confirmation).trace) ∧
      List.Disjoint (main w env region confirmation).nonExistentAlarms
        (skippedAlarms (main w env region confirmation).trace)) := by
  obtain ⟨evs, _, hcalls, hE, hN, _, _, _, hS, _, _⟩ :=
    main_loaded w env region confirmation alarmNames cw hL hC
  have hperm : ((main w env region confirmation).existingAlarms ++
        (main w env region confirmation).nonExistentAlarms ++
        skippedAlarms (main w env region confirmation).trace).Perm alarmNames := by
    rw [hE, hN, hS, ← hcalls]
    exact check_classes_perm evs
  refine ⟨hperm, ?_, ?_⟩
  · have := hperm.length_eq
    simp only [List.length_append] at this
    exact this.symm
  · intro hnd
    have hnd' := (hperm.nodup_iff).2 hnd
    rw [List.nodup_append] at hnd'
    obtain ⟨hEN, _, hENS⟩ := hnd'
    rw [List.nodup_append] at hEN
    refine ⟨hEN.2.2, ?_, ?_⟩
    · intro a ha hs
      exact hENS (List.mem_append_left _ ha) hs
    · intro a ha hs
      exact hENS (List.mem_append_right _ ha) hs

/-- Three distinct names: `a` exists, `b` does not, the check of `c` fails. -/
theorem check_partitions_list_witness :
    ["a", "b", "c"].Nodup ∧
    (main mixedWorld "currentsite-dev" "ap-northeast-1" "no").existingAlarms = ["a"] ∧
    (main mixedWorld "currentsite-dev" "ap-northeast-1" "no").nonExistentAlarms = ["b"] ∧
    skippedAlarms (main mixedWorld "currentsite-dev" "ap-northeast-1" "no").trace = ["c"] ∧
    List.Disjoint (main mixedWorld "currentsite-dev" "ap-northeast-1" "no").existingAlarms
      (skippedAlarms (main mixedWorld "currentsite-dev" "ap-northeast-1" "no").trace) :=
  ⟨by decide, by decide, by decide, by decide,
    ((check_partitions_list mixedWorld "currentsite-dev" "ap-northeast-1" "no" ["a", "b", "c"]
      _ rfl rfl).2.2 (by decide)).2.1⟩

/-- C4, the claim as stated fails: the name `a` is listed twice and found
twice, the operator answers `yes`, the first deletion fails and the second is
accepted, and the run ends with `a` both in `deletedAlarms` and in
`failedDeletions`. -/
theorem delete_buckets_overlap :
    (main retriedDeleteWorld "currentsite-dev" "ap-northeast-1" "yes").existingAlarms =
      ["a", "a"] ∧
    (main retriedDeleteWorld "currentsite-dev" "ap-northeast-1" "yes").deletedAlarms = ["a"] ∧
    (main retriedDeleteWorld "currentsite-dev" "ap-northeast-1" "yes").failedDeletions = ["a"] ∧
    ¬ List.Disjoint
      (main retriedDeleteWorld "currentsite-dev" "ap-northeast-1" "yes").deletedAlarms
      (main retriedDeleteWorld "currentsite-dev" "ap-northeast-1" "yes").failedDeletions :=
  ⟨by decide, by decide, by decide, fun h => @h "a" (by decide) (by decide)⟩

/-- C4, amended: after the deletion loop (the confirmation is one of the four
literals), `deletedAlarms` and `failedDeletions` together are
`existingAlarms` as a multiset, so a name is in `existingAlarms` exactly when
it is in one of the two; the two are disjoint when `existingAlarms` holds no
name twice. -/
theorem delete_partitions_existing (w : World σ) (env region confirmation : String)
    (hyes : confirmation = "yes" ∨ confirmation = "y" ∨ confirmation = "YES" ∨
      confirmation = "Y") :
    ((main w env region confirmation).deletedAlarms ++
        (main w env region confirmation).failedDeletions).Perm
      (main w env region confirmation).existingAlarms ∧
    (∀ alarmName, alarmName ∈ (main w env region confirmation).existingAlarms ↔
      alarmName ∈ (main w env region confirmation).deletedAlarms ∨
        alarmName ∈ (main w env region confirmation).failedDeletions) ∧
    ((main w env region confirmation).existingAlarms.Nodup →
      List.Disjoint (main w env region confirmation).deletedAlarms
        (main w env region confirmation).failedDeletions) := by
  have hA : affirmative confirmation := hyes
  have hperm : ((main w env region confirmation).deletedAlarms ++
        (main w env region confirmation).failedDeletions).Perm
      (main w env region confirmation).existingAlarms := by
    rcases main_cases w env region confirmation with
      ⟨_, hm⟩ | ⟨_, hm⟩ | ⟨L, cw, evs, _, _, hck, _, h3⟩
    · rw [hm]; exact List.Perm.refl _
    · rw [hm]; exact List.Perm.refl _
    · rcases h3 with ⟨_, hm⟩ | ⟨_, hnA, _⟩ | ⟨_, _, dvs, _, hdc, hm⟩
      · rw [hm]; exact List.Perm.refl _
      · exact absurd hA hnA
      · rw [hm]
        show (acceptedDeletes dvs ++ rejectedDeletes dvs).Perm (foundAlarms evs)
        rw [← hdc]
        exact delete_classes_perm dvs
  refine ⟨hperm, ?_, ?_⟩
  · intro alarmName
    rw [← hperm.mem_iff, List.mem_append]
  · intro hnd
    have hnd' := (hperm.nodup_iff).2 hnd
    rw [List.nodup_append] at hnd'
    exact hnd'.2.2

/-- Scenario D: `a` and `b` exist, the operator answers `yes`, deleting `a`
succeeds and deleting `b` fails. -/
theorem delete_partitions_existing_witness :
    (main secondDeleteFailsWorld "currentsite-dev" "ap-northeast-1" "yes").existingAlarms =
      ["a", "b"] ∧
    (main secondDeleteFailsWorld "currentsite-dev" "ap-northeast-1" "yes").deletedAlarms =
      ["a"] ∧
    (main secondDeleteFailsWorld "currentsite-dev" "ap-northeast-1" "yes").failedDeletions =
      ["b"] ∧
    List.Disjoint
      (main secondDeleteFailsWorld "currentsite-dev" "ap-northeast-1" "yes").deletedAlarms
      (main secondDeleteFailsWorld "currentsite-dev" "ap-northeast-1" "yes").failedDeletions :=
  ⟨by decide, by decide, by decide,
    (delete_partitions_existing secondDeleteFailsWorld "currentsite-dev" "ap-northeast-1" "yes"
      (Or.inl rfl)).2.2 (by decide)⟩

/-- C5, the claim as stated fails: `a` and `b` exist and the operator answers
`no`; the run ends with two existing alarms, none deleted and none failed. -/
theorem decline_breaks_count :
    (main bothExistWorld "currentsite-dev" "ap-northeast-1" "no").existingAlarms.length = 2 ∧
    (main bothExistWorld "currentsite-dev" "ap-northeast-1" "no").deletedAlarms.length = 0 ∧
    (main bothExistWorld "currentsite-dev" "ap-northeast-1" "no").failedDeletions.length = 0 ∧
    ¬ (main bothExistWorld "currentsite-dev" "ap-northeast-1" "no").existingAlarms.length =
      (main bothExistWorld "currentsite-dev" "ap-northeast-1" "no").deletedAlarms.length +
        (main bothExistWorld "currentsite-dev" "ap-northeast-1" "no").failedDeletions.length := by
  decide

/-- C5, amended: at the end of every run in which the confirmation is one of
the four literals or no alarm was found, `|existingAlarms| = |deletedAlarms| +
|failedDeletions|`. -/
theorem count_balance_unless_declined (w : World σ) (env region confirmation : String)
    (h : (confirmation = "yes" ∨ confirmation = "y" ∨ confirmation = "YES" ∨
        confirmation = "Y") ∨
      (main w env region confirmation).existingAlarms = []) :
    (main w env region confirmation).existingAlarms.length =
      (main w env region confirmation).deletedAlarms.length +
        (main w env region confirmation).failedDeletions.length := by
  rcases main_cases w env region confirmation with
    ⟨_, hm⟩ | ⟨_, hm⟩ | ⟨L, cw, evs, _, _, hck, _, h3⟩
  · rw [hm]; rfl
  · rw [hm]; rfl
  · rcases h3 with ⟨_, hm⟩ | ⟨hF, hnA, hm⟩ | ⟨_, _, dvs, _, hdc, hm⟩
    · rw [hm]; rfl
    · rcases h with hA | hE
      · exact absurd hA hnA
      · rw [hm] at hE
        exact absurd hE hF
    · rw [hm]
      show (foundAlarms evs).length = (acceptedDeletes dvs).length + (rejectedDeletes dvs).length
      rw [← hdc, ← List.length_append]
      exact (delete_classes_perm dvs).length_eq.symm

/-- Scenario D again: two existing alarms, one deleted and one failed. -/
theorem count_balance_unless_declined_witness :
    (main secondDeleteFailsWorld "currentsite-dev" "ap-northeast-1" "y").deletedAlarms.length = 1 ∧
    (main secondDeleteFailsWorld "currentsite-dev" "ap-northeast-1" "y").failedDeletions.length =
      1 ∧
    (main secondDeleteFailsWorld "currentsite-dev" "ap-northeast-1" "y").existingAlarms.length =
      (main secondDeleteFailsWorld "currentsite-dev" "ap-northeast-1" "y").deletedAlarms.length +
        (main secondDeleteFailsWorld "currentsite-dev" "ap-northeast-1" "y").failedDeletions.length :=
  ⟨by decide, by decide,
    count_balance_unless_declined secondDeleteFailsWorld "currentsite-dev" "ap-northeast-1" "y"
      (Or.inl (Or.inr (Or.inl rfl)))⟩

/-- C6: when the first loop leaves `existingAlarms` empty, the run shows no
prompt, reads no answer, calls `DeleteAlarm` not once and ends with
`deletedAlarms` and `failedDeletions` empty; when the list was loaded and the
client built the process ends with status 0, and an empty alarm list leaves
`existingAlarms` empty. -/
theorem nothing_found_skips_gate (w : World σ) (env region confirmation : String) :
    ((main w env region confirmation).existingAlarms = [] →
      (∀ e ∈ (main w env region confirmation).trace, e.isGate = false) ∧
      deleteCalls (main w env region confirmation).trace = [] ∧
      (main w env region confirmation).deletedAlarms = [] ∧
      (main w env region confirmation).failedDeletions = []) ∧
    (∀ alarmNames cw, LoadAlarmsFromYAML w "cloudwatch-alarms.yaml" = .ok alarmNames →
      NewCloudWatchManager w env region = .ok cw →
      (main w env region confirmation).exitCode = 0 ∧
      (alarmNames = [] → (main w env region confirmation).existingAlarms = [])) := by
  constructor
  · intro hE
    rcases main_cases w env region confirmation with
      ⟨_, hm⟩ | ⟨_, hm⟩ | ⟨L, cw, evs, _, _, hck, _, h3⟩
    · rw [hm]
      refine ⟨?_, rfl, rfl, rfl⟩
      intro e he
      simp only [abort, List.mem_singleton] at he
      rw [he]; rfl
    · rw [hm]
      refine ⟨?_, rfl, rfl, rfl⟩
      intro e he
      simp only [abort, startTrace, List.mem_cons, List.mem_singleton, List.not_mem_nil,
        or_false] at he
      rcases he with rfl | rfl <;> rfl
    · rcases h3 with ⟨_, hm⟩ | ⟨hF, _, hm⟩ | ⟨hF, _, _, _, _, hm⟩
      · rw [hm]
        have h := run_reads env region evs [] [] hck (Or.inl rfl) (by simp)
        simp only [List.append_nil] at h
        exact ⟨no_gate_of_checks env region evs hck, h.2.2.2.2, rfl, rfl⟩
      · rw [hm] at hE
        exact absurd hE hF
      · rw [hm] at hE
        exact absurd hE hF
  · intro alarmNames cw hL hC
    obtain ⟨evs, _, hcalls, hE, _, _, _, _, _, hx, _⟩ :=
      main_loaded w env region confirmation alarmNames cw hL hC
    refine ⟨hx, ?_⟩
    intro hnil
    have hsub : (foundAlarms evs).length ≤ (existsCalls evs).length := by
      have := (check_classes_perm evs).length_eq
      simp only [List.length_append] at this
      omega
    rw [hcalls, hnil] at hsub
    rw [hE]
    exact List.length_eq_zero.1 (Nat.le_zero.1 hsub)

/-- Scenario B: the alarm list is empty; the answer `yes` is never read. -/
theorem nothing_found_skips_gate_witness :
    LoadAlarmsFromYAML emptyListWorld "cloudwatch-alarms.yaml" = .ok [] ∧
    (main emptyListWorld "currentsite-dev" "ap-northeast-1" "yes").existingAlarms = [] ∧
    (main emptyListWorld "currentsite-dev" "ap-northeast-1" "yes").exitCode = 0 ∧
    ((∀ e ∈ (main emptyListWorld "currentsite-dev" "ap-northeast-1" "yes").trace,
        e.isGate = false) ∧
      deleteCalls (main emptyListWorld "currentsite-dev" "ap-northeast-1" "yes").trace = [] ∧
      (main emptyListWorld "currentsite-dev" "ap-northeast-1" "yes").deletedAlarms = [] ∧
      (main emptyListWorld "currentsite-dev" "ap-northeast-1" "yes").failedDeletions = []) :=
  ⟨rfl,
    ((nothing_found_skips_gate emptyListWorld "currentsite-dev" "ap-northeast-1" "yes").2
      [] _ rfl rfl).2 rfl,
    ((nothing_found_skips_gate emptyListWorld "currentsite-dev" "ap-northeast-1" "yes").2
      [] _ rfl rfl).1,
    (nothing_found_skips_gate emptyListWorld "currentsite-dev" "ap-northeast-1" "yes").1
      (by decide)⟩

/-- C7: `AlarmExists` makes one `DescribeAlarms` call for the single name and
returns `(true, nil)` exactly when the call succeeds with a metric or a
composite alarm in its output, `(false, nil)` exactly when the call succeeds
with neither, and `false` with an error exactly when the call fails; a failed
call is never answered `(false, nil)`. -/
theorem AlarmExists_spec (w : World σ) (cw : σ) (alarmName : String) :
    (AlarmExists w cw alarmName).1 = (w.describeAlarms cw [alarmName]).1 ∧
    ((AlarmExists w cw alarmName).2 = (true, none) ↔
      ∃ result, (w.describeAlarms cw [alarmName]).2 = .ok result ∧
        (result.MetricAlarms ≠ [] ∨ result.CompositeAlarms ≠ [])) ∧
    ((AlarmExists w cw alarmName).2 = (false, none) ↔
      ∃ result, (w.describeAlarms cw [alarmName]).2 = .ok result ∧
        result.MetricAlarms = [] ∧ result.CompositeAlarms = []) ∧
    ((∃ msg, (AlarmExists w cw alarmName).2 = (false, some msg)) ↔
      ∃ err, (w.describeAlarms cw [alarmName]).2 = .error err) ∧
    ((AlarmExists w cw alarmName).2.2 = none ↔
      ∃ result, (w.describeAlarms cw [alarmName]).2 = .ok result) := by
  rcases hD : w.describeAlarms cw [alarmName] with ⟨cw', err | result⟩
  · have hA : AlarmExists w cw alarmName =
        (cw', false, some ("error describing alarm " ++ alarmName ++ ": " ++ err)) := by
      simp only [AlarmExists, hD]
    rw [hA]
    simp
  · by_cases hne : result.MetricAlarms.length > 0 ∨ result.CompositeAlarms.length > 0
    · have hne' : result.MetricAlarms ≠ [] ∨ result.CompositeAlarms ≠ [] := by
        rcases hne with h | h
        · exact Or.inl (List.length_pos.1 h)
        · exact Or.inr (List.length_pos.1 h)
      have hA : AlarmExists w cw alarmName = (cw', true, none) := by
        simp only [AlarmExists, hD, if_pos hne]
      rw [hA]
      refine ⟨rfl, ?_, ?_, ?_, ?_⟩
      · exact ⟨fun _ => ⟨result, rfl, hne'⟩, fun _ => rfl⟩
      · constructor
        · intro h; simp at h
        · rintro ⟨r, hr, h1, h2⟩
          cases hr
          rcases hne' with h | h
          · exact absurd h1 h
          · exact absurd h2 h
      · constructor
        · rintro ⟨msg, h⟩; simp at h
        · rintro ⟨e, h⟩; cases h
      · exact ⟨fun _ => ⟨result, rfl⟩, fun _ => rfl⟩
    · have hM : result.MetricAlarms = [] := by
        apply List.length_eq_zero.1
        have : ¬ result.MetricAlarms.length > 0 := fun h => hne (Or.inl h)
        omega
      have hK : result.CompositeAlarms = [] := by
        apply List.length_eq_zero.1
        have : ¬ result.CompositeAlarms.length > 0 := fun h => hne (Or.inr h)
        omega
      have hA : AlarmExists w cw alarmName = (cw', false, none) := by
        simp only [AlarmExists, hD, if_neg hne]
      rw [hA]
      refine ⟨rfl, ?_, ?_, ?_, ?_⟩
      · constructor
        · intro h; simp at h
        · rintro ⟨r, hr, h⟩
          cases hr
          rcases h with h | h
          · exact absurd hM h
          · exact absurd hK h
      · exact ⟨fun _ => ⟨result, rfl, hM, hK⟩, fun _ => rfl⟩
      · constructor
        · rintro ⟨msg, h⟩; simp at h
        · rintro ⟨e, h⟩; cases h
      · exact ⟨fun _ => ⟨result, rfl⟩, fun _ => rfl⟩

/-- C8, the code at a loader failure: when `cloudwatch-alarms.yaml` cannot be
read, `main` returns before any backend interaction and the process ends with
status 0, not with a non-zero one; when the client cannot be built the
process ends with status 1 before any existence check. -/
theorem config_error_exits_zero :
    main missingFileWorld "currentsite-dev" "ap-northeast-1" "yes" =
      abort [Event.ReadFile "cloudwatch-alarms.yaml"] 0 ∧
    (main missingFileWorld "currentsite-dev" "ap-northeast-1" "yes").exitCode = 0 ∧
    (∀ e ∈ (main missingFileWorld "currentsite-dev" "ap-northeast-1" "yes").trace,
      e.isBackend = false) ∧
    (main badCredentialsWorld "currentsite-dev" "ap-northeast-1" "yes").exitCode = 1 ∧
    existsCalls (main badCredentialsWorld "currentsite-dev" "ap-northeast-1" "yes").trace = [] ∧
    deleteCalls (main badCredentialsWorld "currentsite-dev" "ap-northeast-1" "yes").trace = [] := by
  decide

/-- C9: the options `loadAWSConfig` passes to the SDK are one profile and one
region, in that order: the profile is `currentsite-dev` for the environment
`currentsite-dev`, `currentsite-prod` for `currentsite-prod` and
`currentsite-dev` for every other string; the region is the given one when it
is not empty and `ap-northeast-1` when it is. -/
theorem loadOptions_spec (w : World σ) :
    (∀ env region, loadAWSConfig w env region = w.loadDefaultConfig (loadOptions env region)) ∧
    (∀ env region, loadOptions env region =
      [LoadOption.WithSharedConfigProfile
          (if env = "currentsite-prod" then "currentsite-prod" else "currentsite-dev"),
        LoadOption.WithRegion (if region = "" then "ap-northeast-1" else region)]) ∧
    (∀ region, ∃ r, loadOptions "currentsite-dev" region =
      [LoadOption.WithSharedConfigProfile "currentsite-dev", LoadOption.WithRegion r]) ∧
    (∀ region, ∃ r, loadOptions "currentsite-prod" region =
      [LoadOption.WithSharedConfigProfile "currentsite-prod", LoadOption.WithRegion r]) ∧
    (∀ env region, env ≠ "currentsite-dev" → env ≠ "currentsite-prod" →
      ∃ r, loadOptions env region =
        [LoadOption.WithSharedConfigProfile "currentsite-dev", LoadOption.WithRegion r]) ∧
    (∀ env region, region ≠ "" →
      ∃ profile, loadOptions env region =
        [LoadOption.WithSharedConfigProfile profile, LoadOption.WithRegion region]) ∧
    (∀ env, ∃ profile, loadOptions env "" =
      [LoadOption.WithSharedConfigProfile profile, LoadOption.WithRegion "ap-northeast-1"]) := by
  have hform : ∀ env region, loadOptions env region =
      [LoadOption.WithSharedConfigProfile
          (if env = "currentsite-prod" then "currentsite-prod" else "currentsite-dev"),
        LoadOption.WithRegion (if region = "" then "ap-northeast-1" else region)] := by
    intro env region
    unfold loadOptions
    by_cases h1 : env = "currentsite-dev"
    · have h2 : ¬ env = "currentsite-prod" := by rw [h1]; decide
      by_cases h3 : region = ""
      · simp [h1, h3]
      · simp [h1, h3]
    · by_cases h2 : env = "currentsite-prod"
      · by_cases h3 : region = ""
        · simp [h2, h3]
        · simp [h2, h3]
      · by_cases h3 : region = ""
        · simp [h1, h2, h3]
        · simp [h1, h2, h3]
  refine ⟨?_, hform, ?_, ?_, ?_, ?_, ?_⟩
  · intro env region
    unfold loadAWSConfig
    cases w.loadDefaultConfig (loadOptions env region) <;> rfl
  · intro region
    exact ⟨_, by rw [hform]; rfl⟩
  · intro region
    exact ⟨_, by rw [hform]; rfl⟩
  · intro env region _ h2
    exact ⟨_, by rw [hform, if_neg h2]⟩
  · intro env region h3
    exact ⟨_, by rw [hform, if_neg h3]⟩
  · intro env
    exact ⟨_, by rw [hform]; rfl⟩

/-- An unknown environment with a region, and the production environment
without one. -/
theorem loadOptions_spec_witness :
    "staging" ≠ "currentsite-dev" ∧ "staging" ≠ "currentsite-prod" ∧
    (∃ r, loadOptions "staging" "us-east-1" =
      [LoadOption.WithSharedConfigProfile "currentsite-dev", LoadOption.WithRegion r]) ∧
    (∃ profile, loadOptions "currentsite-prod" "us-east-1" =
      [LoadOption.WithSharedConfigProfile profile, LoadOption.WithRegion "us-east-1"]) ∧
    loadOptions "staging" "" =
      [LoadOption.WithSharedConfigProfile "currentsite-dev",
        LoadOption.WithRegion "ap-northeast-1"] :=
  ⟨by decide, by decide,
    (loadOptions_spec emptyListWorld).2.2.2.2.1 "staging" "us-east-1" (by decide) (by decide),
    (loadOptions_spec emptyListWorld).2.2.2.2.2.1 "currentsite-prod" "us-east-1" (by decide),
    by decide⟩

/-- C10: the first loop calls `AlarmExists` once per entry of the alarm list,
in list order, whatever the calls return; an iteration whose check returns an
error appends to neither `existingAlarms` nor `nonExistentAlarms`, which hold
exactly the entries whose own check answered "exists" and "does not exist";
and `DeleteAlarm` is called only for entries whose check answered "exists",
so for every name the deletions and the failed checks together never exceed
the entries of that name. -/
theorem check_error_isolated (w : World σ) (env region confirmation : String)
    (alarmNames : List String) (cw : σ)
    (hL : LoadAlarmsFromYAML w "cloudwatch-alarms.yaml" = .ok alarmNames)
    (hC : NewCloudWatchManager w env region = .ok cw) :
    existsCalls (main w env region confirmation).trace = alarmNames ∧
    (∀ (st : State σ) alarmName msg, (AlarmExists w st.cw alarmName).2.2 = some msg →
      (checkStep w st alarmName).existingAlarms = st.existingAlarms ∧
      (checkStep w st alarmName).nonExistentAlarms = st.nonExistentAlarms ∧
      (checkStep w st alarmName).deletedAlarms = st.deletedAlarms ∧
      (checkStep w st alarmName).failedDeletions = st.failedDeletions) ∧
    (main w env region confirmation).existingAlarms =
      foundAlarms (main w env region confirmation).trace ∧
    (main w env region confirmation).nonExistentAlarms =
      missingAlarms (main w env region confirmation).trace ∧
    (deleteCalls (main w env region confirmation).trace = [] ∨
      deleteCalls (main w env region confirmation).trace =
        foundAlarms (main w env region confirmation).trace) ∧
    (∀ alarmName,
      (deleteCalls (main w env region confirmation).trace).count alarmName +
        (skippedAlarms (main w env region confirmation).trace).count alarmName ≤
      alarmNames.count alarmName) := by
  obtain ⟨evs, _, hcalls, hE, hN, hX, hF, hM, hS, _, hD⟩ :=
    main_loaded w env region confirmation alarmNames cw hL hC
  refine ⟨by rw [hX, hcalls], ?_, by rw [hE, hF], by rw [hN, hM], ?_, ?_⟩
  · intro st alarmName msg hmsg
    unfold checkStep
    rcases hA : AlarmExists w st.cw alarmName with ⟨cw', found, err⟩
    rw [hA] at hmsg
    cases err with
    | none => cases hmsg
    | some e => exact ⟨rfl, rfl, rfl, rfl⟩
  · rw [hF]; exact hD
  · intro alarmName
    have hp := (check_classes_perm evs).count_eq alarmName
    rw [hcalls] at hp
    simp only [List.count_append] at hp
    rw [hS]
    rcases hD with h | h
    · rw [h]; simp only [List.count_nil]; omega
    · rw [h]; omega

/-- The check of `a` fails, `b` is absent and `c` is present; the operator
answers `yes`: all three names are checked and only `c` is deleted. -/
theorem check_error_isolated_witness :
    existsCalls (main errorFirstWorld "currentsite-dev" "ap-northeast-1" "yes").trace =
      ["a", "b", "c"] ∧
    skippedAlarms (main errorFirstWorld "currentsite-dev" "ap-northeast-1" "yes").trace = ["a"] ∧
    (main errorFirstWorld "currentsite-dev" "ap-northeast-1" "yes").existingAlarms = ["c"] ∧
    (main errorFirstWorld "currentsite-dev" "ap-northeast-1" "yes").nonExistentAlarms = ["b"] ∧
    deleteCalls (main errorFirstWorld "currentsite-dev" "ap-northeast-1" "yes").trace = ["c"] ∧
    (deleteCalls (main errorFirstWorld "currentsite-dev" "ap-northeast-1" "yes").trace).count "a" +
        (skippedAlarms
          (main errorFirstWorld "currentsite-dev" "ap-northeast-1" "yes").trace).count "a" ≤
      ["a", "b", "c"].count "a" :=
  ⟨(check_error_isolated errorFirstWorld "currentsite-dev" "ap-northeast-1" "yes"
      ["a", "b", "c"] _ rfl rfl).1,
    by decide, by decide, by decide, by decide,
    (check_error_isolated errorFirstWorld "currentsite-dev" "ap-northeast-1" "yes"
      ["a", "b", "c"] _ rfl rfl).2.2.2.2.2 "a"⟩

end CloudwatchAlarmDelete
